import Mathlib

/-!
Shallow embedding of the batmon analysis engine (src/main.go) in Lean 4.

Modelling conventions, used throughout:
* Go `float64` values are modelled as exact rationals (`ℚ`); Go `int`
  values as `ℤ`.
* A `Measurement.Timestamp` string is represented by the outcome of
  `time.Parse(time.RFC3339, ...)` on it: `time : Option ℚ` holds the
  parsed instant in seconds (`none` = parse error), since the engine
  touches the raw text only through this parse (and through display
  formatting, which is presentation and not modelled).
* `time.Duration` values are modelled in seconds (`ℚ`);
  `Duration.Minutes()` is division by 60, `Duration.Hours()` by 3600,
  `time.Time.Sub` is subtraction of the parsed instants.
* Go's `int(x)` conversion of a `float64` truncates toward zero
  (`goTrunc` below); `strings.ToLower` is modelled per ASCII character
  (`toLowerStr`), which agrees with Go on the state strings involved.
* `time.Now()` inside `analyzeCapacityTrend` is modelled as an explicit
  `now : ℚ` argument threaded to its callers.
* Human-readable anomaly strings are modelled structurally (`Anomaly`
  below) carrying exactly the data the source interpolates into each
  message; the surrounding message text is presentation.
-/

/-- Go `int(x)` conversion of a `float64`: truncation toward zero. -/
def goTrunc (q : ℚ) : ℤ := if 0 ≤ q then ⌊q⌋ else ⌈q⌉

/-- Model of Go `strings.ToLower`, per character; it agrees with Go on the
ASCII state values (`"charging"`, `"discharging"`, ...) the engine sees. -/
def toLowerStr (s : String) : String := String.mk (s.data.map Char.toLower)

/-- `Measurement` (src/main.go:491): one sampled observation of battery
state. The `Timestamp` string field is represented by its RFC 3339 parse
outcome `time` (see the module conventions); the database `ID` field and
the extended metrics unused by the analysis engine (`Voltage`, `Amperage`,
`Power`, `AppleCondition`) are omitted. -/
structure Measurement where
  time : Option ℚ
  percentage : ℤ
  state : String
  cycleCount : ℤ
  fullChargeCap : ℤ
  designCapacity : ℤ
  currentCapacity : ℤ
  temperature : ℤ
deriving DecidableEq

instance : Inhabited Measurement := ⟨⟨none, 0, "", 0, 0, 0, 0, 0⟩⟩

/-- `TrendAnalysis` (src/main.go:146): result of the degradation-trend
analysis. Zero value is `⟨0, 0, false⟩`; the code always returns it with
an explicit `IsHealthy`. -/
structure TrendAnalysis where
  degradationRate : ℚ
  projectedLifetime : ℤ
  isHealthy : Bool
deriving DecidableEq

/-- `ChargeCycle` (src/main.go:153): one charge/discharge segment. Times
are parsed instants (seconds), matching the `time.Time` fields. -/
structure ChargeCycle where
  startTime : ℚ
  endTime : ℚ
  startPercent : ℤ
  endPercent : ℤ
  cycleType : String
  capacityLoss : ℤ
deriving DecidableEq

/-- The trailing window both rate estimators walk (src/main.go:841-847 and
946-951): `start := len(ms) - intervals - 1`, clamped below at 0 (natural
subtraction does the clamping), and the loop visits indices `start` to
`len(ms)-2`, i.e. the consecutive pairs of the suffix from `start`. -/
def window (ms : List Measurement) (intervals : ℕ) : List Measurement :=
  ms.drop (ms.length - intervals - 1)

/-- The consecutive index pairs `(i, i+1)` the rate-estimator loops visit. -/
def windowPairs (ms : List Measurement) (intervals : ℕ) :
    List (Measurement × Measurement) :=
  (window ms intervals).zip (window ms intervals).tail

/-- One iteration of the `computeAvgRate` loop (src/main.go:848-861): skip
the pair when capacity did not strictly drop, skip when either timestamp
fails to parse, otherwise accumulate the capacity delta and elapsed hours. -/
def avgRateStep (a : ℚ × ℚ) (p : Measurement × Measurement) : ℚ × ℚ :=
  let diff : ℚ := ((p.1.currentCapacity - p.2.currentCapacity : ℤ) : ℚ)
  if diff ≤ 0 then a
  else
    match p.1.time, p.2.time with
    | some t1, some t2 => (a.1 + diff, a.2 + (t2 - t1) / 3600)
    | _, _ => a

/-- `computeAvgRate` (src/main.go:840-867): naive average discharge rate in
mAh/hour over the last `intervals` consecutive pairs. -/
def computeAvgRate (ms : List Measurement) (intervals : ℕ) : ℚ :=
  if ms.length < 2 then 0
  else
    let acc := (windowPairs ms intervals).foldl avgRateStep (0, 0)
    if acc.2 = 0 then 0 else acc.1 / acc.2

/-- One iteration of the `computeAvgRateRobust` loop (src/main.go:952-984):
reject the pair when `|Δpercentage| > 20` or `|ΔcurrentCapacity| > 500`,
when capacity did not strictly drop, when a timestamp fails to parse, or
when the elapsed time is `≤ 0` or `> 2` hours; otherwise accumulate and
count the interval as valid. -/
def robustStep (a : ℚ × ℚ × ℕ) (p : Measurement × Measurement) : ℚ × ℚ × ℕ :=
  let prev := p.1
  let curr := p.2
  let chargeDiff := |curr.percentage - prev.percentage|
  let capacityDiff := |curr.currentCapacity - prev.currentCapacity|
  if 20 < chargeDiff ∨ 500 < capacityDiff then a
  else
    let diff : ℚ := ((prev.currentCapacity - curr.currentCapacity : ℤ) : ℚ)
    if diff ≤ 0 then a
    else
      match prev.time, curr.time with
      | some t1, some t2 =>
        let timeH := (t2 - t1) / 3600
        if timeH ≤ 0 ∨ 2 < timeH then a
        else (a.1 + diff, a.2.1 + timeH, a.2.2 + 1)
      | _, _ => a

/-- `computeAvgRateRobust` (src/main.go:941-991): outlier-filtered average
discharge rate together with the count of intervals that passed all
filters. The count is returned even when the accumulated time is zero. -/
def computeAvgRateRobust (ms : List Measurement) (intervals : ℕ) : ℚ × ℕ :=
  if ms.length < 2 then (0, 0)
  else
    let acc := (windowPairs ms intervals).foldl robustStep (0, 0, 0)
    if acc.2.1 = 0 then (0, acc.2.2) else (acc.1 / acc.2.1, acc.2.2)

/-- `computeWear` (src/main.go:879-884): battery wear percentage, `0` when
the design capacity is `0`. -/
def computeWear (designCap fullCap : ℤ) : ℚ :=
  if designCap = 0 then 0
  else ((designCap - fullCap : ℤ) : ℚ) / (designCap : ℚ) * 100

/-- `normalizeAnomalyThresholds` (src/main.go:1137-1161): interval-scaled
anomaly thresholds `(charge %, capacity mAh)`. The `interval` argument is a
duration in seconds; `Minutes()` divides by 60. -/
def normalizeAnomalyThresholds (interval : ℚ) : ℤ × ℤ :=
  let baseChargeThreshold : ℤ := 20
  let baseCapacityThreshold : ℤ := 500
  let minutes := interval / 60
  let minutes := if minutes < 1/2 then 1/2 else minutes
  let normalizedChargeThreshold := goTrunc ((baseChargeThreshold : ℚ) * minutes * 2)
  let normalizedCapacityThreshold := goTrunc ((baseCapacityThreshold : ℚ) * minutes)
  (if 50 < normalizedChargeThreshold then 50 else normalizedChargeThreshold,
   if 2000 < normalizedCapacityThreshold then 2000 else normalizedCapacityThreshold)

/-- Structural model of the anomaly strings `detectBatteryAnomalies`
produces (src/main.go:886-936): one constructor per `fmt.Sprintf` template,
carrying the data interpolated into the message (the minutes figure is the
elapsed interval divided by 60). -/
inductive Anomaly where
  | chargeJump (fromPct toPct : ℤ) (minutes : ℚ)
  | chargeDrop (fromPct toPct : ℤ) (minutes : ℚ)
  | stateChange (fromState toState : String)
  | capacityJump (fromCap toCap : ℤ) (minutes : ℚ)
deriving DecidableEq

/-- The interval used for one pair in `detectBatteryAnomalies`
(src/main.go:895-901): the timestamp difference when both endpoints parse,
otherwise the default of 30 seconds. -/
def pairInterval (prev curr : Measurement) : ℚ :=
  match prev.time, curr.time with
  | some t1, some t2 => t2 - t1
  | _, _ => 30

/-- The anomaly checks of one `detectBatteryAnomalies` iteration
(src/main.go:903-933) at an explicit interval: charge jump, charge drop,
state change, capacity jump, appended in source order. -/
def pairAnomaliesCore (prev curr : Measurement) (interval : ℚ) : List Anomaly :=
  let t := normalizeAnomalyThresholds interval
  let chargeDiff := curr.percentage - prev.percentage
  (if t.1 < chargeDiff then
    [Anomaly.chargeJump prev.percentage curr.percentage (interval / 60)] else []) ++
  (if chargeDiff < -t.1 then
    [Anomaly.chargeDrop prev.percentage curr.percentage (interval / 60)] else []) ++
  (if prev.state ≠ curr.state then
    [Anomaly.stateChange prev.state curr.state] else []) ++
  (if t.2 < |curr.currentCapacity - prev.currentCapacity| then
    [Anomaly.capacityJump prev.currentCapacity curr.currentCapacity (interval / 60)] else [])

/-- One full `detectBatteryAnomalies` iteration: the checks at the pair's
own interval. -/
def pairAnomalies (prev curr : Measurement) : List Anomaly :=
  pairAnomaliesCore prev curr (pairInterval prev curr)

/-- `detectBatteryAnomalies` (src/main.go:886-936): walks every consecutive
pair of the whole sequence and concatenates the anomalies each produces
(fewer than 2 samples produce the empty list, as the pair list is empty). -/
def detectBatteryAnomalies (ms : List Measurement) : List Anomaly :=
  (ms.zip ms.tail).flatMap fun p => pairAnomalies p.1 p.2

/-- The filter `analyzeCapacityTrend` applies (src/main.go:1027-1033): keep
a sample when its timestamp parses to an instant after `now` minus 30 days
(2592000 seconds) and both capacity fields are positive. -/
def trendKeep (now : ℚ) (m : Measurement) : Bool :=
  match m.time with
  | some t =>
    decide (now - 2592000 < t) && decide (0 < m.fullChargeCap) &&
      decide (0 < m.designCapacity)
  | none => false

/-- `analyzeCapacityTrend` (src/main.go:1017-1077): two-point degradation
trend over the samples of the last 30 days. `now` models the `time.Now()`
call at src/main.go:1023. Requires 10 samples overall, 5 filtered samples
and 7 days of filtered span, otherwise healthy-by-default; the degradation
rate is the first-to-last slope of `fullChargeCap`, scaled to a 30-day
month and expressed as a percentage of the design capacity. -/
def analyzeCapacityTrend (now : ℚ) (measurements : List Measurement) : TrendAnalysis :=
  if measurements.length < 10 then ⟨0, 0, true⟩
  else
    let validMeasurements := measurements.filter (trendKeep now)
    if validMeasurements.length < 5 then ⟨0, 0, true⟩
    else
      let first := validMeasurements.head?.getD default
      let last := validMeasurements.getLast?.getD default
      let firstTime := first.time.getD 0
      let lastTime := last.time.getD 0
      let daysDiff := (lastTime - firstTime) / 3600 / 24
      if daysDiff < 7 then ⟨0, 0, true⟩
      else
        let capacityDiff : ℚ := ((last.fullChargeCap - first.fullChargeCap : ℤ) : ℚ)
        let dailyDegradation := capacityDiff / daysDiff
        let monthlyDegradation := dailyDegradation * 30
        let monthlyDegradationPercent := monthlyDegradation / (last.designCapacity : ℚ) * 100
        let currentHealthPercent := (last.fullChargeCap : ℚ) / (last.designCapacity : ℚ) * 100
        let projectedDays : ℤ :=
          if monthlyDegradationPercent < 0 ∧ 80 < currentHealthPercent then
            goTrunc ((currentHealthPercent - 80) / (-monthlyDegradationPercent) * 30)
          else 0
        ⟨monthlyDegradationPercent, projectedDays, decide (-(1/2) < monthlyDegradationPercent)⟩

/-- Closing the open cycle at a state transition (src/main.go:1103-1110):
overwrite its end time and end percentage with the transition sample's
values and compute the capacity loss when both capacities are positive. -/
def cycleClose (c : ChargeCycle) (prev m : Measurement) (ts : ℚ) : ChargeCycle :=
  { c with
    endTime := ts
    endPercent := m.percentage
    capacityLoss :=
      if 0 < prev.currentCapacity ∧ 0 < m.currentCapacity then
        prev.currentCapacity - m.currentCapacity
      else c.capacityLoss }

/-- Opening a new cycle at a state transition (src/main.go:1114-1118): the
remaining fields take Go zero values until the update step fills them. -/
def cycleOpen (m : Measurement) (ts : ℚ) : ChargeCycle :=
  { startTime := ts
    endTime := 0
    startPercent := m.percentage
    endPercent := 0
    cycleType := toLowerStr m.state
    capacityLoss := 0 }

/-- The unconditional per-sample update (src/main.go:1121-1125): every
parseable sample rewrites the open cycle's end time and end percentage. -/
def cycleUpdate (cur : Option ChargeCycle) (m : Measurement) (ts : ℚ) :
    Option ChargeCycle :=
  match cur with
  | some c => some { c with endTime := ts, endPercent := m.percentage }
  | none => none

/-- One iteration of the `detectChargeCycles` walk for `i ≥ 1`
(src/main.go:1088-1126), acting on the pair `(measurements[i-1],
measurements[i])`: skip when the current sample's timestamp does not
parse; on a state change close the open cycle (if any) and open a new one
typed by the lower-cased new state; then run the unconditional update. The
`i = 0` iteration of the source only parses and skips, so it is dropped. -/
def cycleStep (acc : List ChargeCycle × Option ChargeCycle)
    (p : Measurement × Measurement) : List ChargeCycle × Option ChargeCycle :=
  match p.2.time with
  | none => acc
  | some ts =>
    if p.1.state ≠ p.2.state then
      let closed :=
        match acc.2 with
        | some c => acc.1 ++ [cycleClose c p.1 p.2 ts]
        | none => acc.1
      (closed, cycleUpdate (some (cycleOpen p.2 ts)) p.2 ts)
    else
      (acc.1, cycleUpdate acc.2 p.2 ts)

/-- `detectChargeCycles` (src/main.go:1079-1135): segment the sequence at
state transitions; fewer than 3 samples yield no cycles, and the final
open cycle, if any, is flushed after the walk. -/
def detectChargeCycles (measurements : List Measurement) : List ChargeCycle :=
  if measurements.length < 3 then []
  else
    let acc := (measurements.zip measurements.tail).foldl cycleStep ([], none)
    match acc.2 with
    | some c => acc.1 ++ [c]
    | none => acc.1

/-- The base `(status, score)` classification switch of
`analyzeBatteryHealth` (src/main.go:1261-1278): first match top to bottom
on `(wear, cycleCount)`. The status strings are the source's Russian
labels: "Отличное" = Excellent, "Хорошее" = Good, "Удовлетворительное" =
Fair, "Требует внимания" = Needs attention, "Плохое" = Poor. -/
def baseHealth (wear : ℚ) (cycleCount : ℤ) : String × ℤ :=
  if wear < 5 ∧ cycleCount < 300 then ("Отличное", 95)
  else if wear < 10 ∧ cycleCount < 500 then ("Хорошее", 85)
  else if wear < 20 ∧ cycleCount < 800 then ("Удовлетворительное", 70)
  else if wear < 30 ∧ cycleCount < 1200 then ("Требует внимания", 50)
  else ("Плохое", 30)

/-- The composite result of `analyzeBatteryHealth` (the
`map[string]interface{}` it fills, src/main.go:1227-1296): the analysis
keys used by the health claims. The recommendation strings
(src/main.go:1298 onward) are presentation output and are not modelled. -/
structure HealthAnalysis where
  wearPercentage : ℚ
  cycleCount : ℤ
  anomalies : List Anomaly
  dischargeRate : ℚ
  validIntervals : ℕ
  trend : TrendAnalysis
  chargeCycles : List ChargeCycle
  healthStatus : String
  healthScore : ℤ
deriving DecidableEq

/-- `analyzeBatteryHealth` (src/main.go:1226-1296): `none` on an empty
sequence (the source returns `nil`), otherwise the composite analysis:
wear and cycle count of the latest sample, the anomaly list, the robust
rate over a window of 10, the trend (at `now`, see `analyzeCapacityTrend`),
the cycle list, and the scored status with the post-table adjustments of
src/main.go:1280-1290 (−10 and a suffix when more than 5 anomalies, −15
and a suffix when the trend is unhealthy and degradation is below −1). -/
def analyzeBatteryHealth (now : ℚ) (ms : List Measurement) : Option HealthAnalysis :=
  match ms.getLast? with
  | none => none
  | some latest =>
    let wear := computeWear latest.designCapacity latest.fullChargeCap
    let anomalies := detectBatteryAnomalies ms
    let rate := computeAvgRateRobust ms 10
    let trendAnalysis := analyzeCapacityTrend now ms
    let chargeCycles := detectChargeCycles ms
    let base := baseHealth wear latest.cycleCount
    let adjusted :=
      if 5 < anomalies.length then
        (base.1 ++ " (нестабильная работа)", base.2 - 10)
      else base
    let adjusted :=
      if trendAnalysis.isHealthy = false ∧ trendAnalysis.degradationRate < -1 then
        (adjusted.1 ++ " (быстрая деградация)", adjusted.2 - 15)
      else adjusted
    some
      { wearPercentage := wear
        cycleCount := latest.cycleCount
        anomalies := anomalies
        dischargeRate := rate.1
        validIntervals := rate.2
        trend := trendAnalysis
        chargeCycles := chargeCycles
        healthStatus := adjusted.1
        healthScore := adjusted.2 }

/-! ## Spec-side definitions for refinement claims -/

/-- Spec-side restatement of the threshold normalization, following the
spec's words: scale the base thresholds of 20 percentage points and 500
mAh linearly by `max(interval in minutes, 0.5)`, double the percentage
threshold, and cap the results at 50 points and 2000 mAh. -/
def specNormalizeThresholds (interval : ℚ) : ℤ × ℤ :=
  let m := max (interval / 60) (1/2)
  (min (goTrunc (20 * m * 2)) 50, min (goTrunc (500 * m)) 2000)

/-! ## C9: anomaly threshold scaling -/

/-- C9: `normalizeAnomalyThresholds` yields charge-threshold 40 and
capacity-threshold 500 for a 60-second interval, and the clamp caps 50 and
2000 for a 10-minute (600-second) interval; in general it agrees with the
spec formula `specNormalizeThresholds` (base thresholds 20 points / 500
mAh scaled linearly by `max(minutes, 0.5)`, percentage threshold doubled,
capped at 50 and 2000). -/
theorem c9_threshold_scaling :
    normalizeAnomalyThresholds 60 = (40, 500) ∧
    normalizeAnomalyThresholds 600 = (50, 2000) ∧
    ∀ interval : ℚ, normalizeAnomalyThresholds interval = specNormalizeThresholds interval := by
  refine ⟨by norm_num [normalizeAnomalyThresholds, goTrunc],
          by norm_num [normalizeAnomalyThresholds, goTrunc], ?_⟩
  intro interval
  simp only [normalizeAnomalyThresholds, specNormalizeThresholds]
  have hm : (if interval / 60 < 1/2 then (1/2 : ℚ) else interval / 60) =
      max (interval / 60) (1/2) := by
    rcases lt_or_le (interval / 60) (1/2) with h | h
    · rw [if_pos h, max_eq_right h.le]
    · rw [if_neg (not_lt.mpr h), max_eq_left h]
  rw [hm]
  have hc : (((20 : ℤ) : ℚ)) = (20 : ℚ) := by norm_num
  have hk : (((500 : ℤ) : ℚ)) = (500 : ℚ) := by norm_num
  rw [hc, hk, Prod.mk.injEq]
  refine ⟨?_, ?_⟩
  · rcases le_or_lt (goTrunc (20 * max (interval / 60) (1/2) * 2)) 50 with h | h
    · rw [if_neg (not_lt.mpr h), min_eq_left h]
    · rw [if_pos h, min_eq_right h.le]
  · rcases le_or_lt (goTrunc (500 * max (interval / 60) (1/2))) 2000 with h | h
    · rw [if_neg (not_lt.mpr h), min_eq_left h]
    · rw [if_pos h, min_eq_right h.le]

/-! ## C3: unparseable timestamps in the anomaly detector -/

/-- Two consecutive samples whose first timestamp does not parse: the
states differ, so the claimed "silently skipped" pair would contribute no
anomaly, while the detector still reports the state change. -/
def c3demo : List Measurement :=
  [⟨none, 50, "charging", 100, 5000, 5200, 4000, 25⟩,
   ⟨some 30, 50, "discharging", 100, 5000, 5200, 4000, 25⟩]

/-- C3 counterexample: the only consecutive pair of `c3demo` has an
unparseable first timestamp, yet `detectBatteryAnomalies` does not skip
it — it reports the pair's state change (the claim's "silently skipped"
would leave the anomaly list empty). -/
theorem c3_counterexample :
    (c3demo.head?.getD default).time = none ∧
    detectBatteryAnomalies c3demo = [Anomaly.stateChange "charging" "discharging"] := by
  refine ⟨rfl, ?_⟩
  have hne : ("charging" : String) ≠ "discharging" := by decide
  norm_num [detectBatteryAnomalies, c3demo, pairAnomalies, pairAnomaliesCore,
    pairInterval, normalizeAnomalyThresholds, goTrunc, hne]

/-- C3 amended: `detectBatteryAnomalies` never skips a pair for timestamp
reasons. Whenever either endpoint of a consecutive pair fails to parse
(one or both), the detector falls back to the default 30-second interval
for threshold normalization, and in particular a state change on such a
pair is still reported in the output. -/
theorem c3_amended (ms : List Measurement) (i : ℕ) (hi : i + 1 < ms.length)
    (hbad : ms[i].time = none ∨ ms[i+1].time = none) :
    pairAnomalies ms[i] ms[i+1] = pairAnomaliesCore ms[i] ms[i+1] 30 ∧
    (ms[i].state ≠ ms[i+1].state →
      Anomaly.stateChange ms[i].state ms[i+1].state ∈ detectBatteryAnomalies ms) := by
  have hint : pairInterval ms[i] ms[i+1] = 30 := by
    rcases hbad with h | h
    · simp [pairInterval, h]
    · rcases hx : ms[i].time with _ | t <;> simp [pairInterval, hx, h]
  constructor
  · rw [pairAnomalies, hint]
  · intro hst
    have hmem : Anomaly.stateChange ms[i].state ms[i+1].state ∈
        pairAnomalies ms[i] ms[i+1] := by
      rw [pairAnomalies]
      simp [pairAnomaliesCore, hst]
    have hlt : i < (ms.zip ms.tail).length := by
      rw [List.length_zip, List.length_tail]
      omega
    have hpair : (ms.zip ms.tail)[i] = (ms[i], ms[i+1]) := by
      rw [List.getElem_zip, List.getElem_tail]
    rw [detectBatteryAnomalies, List.mem_flatMap]
    exact ⟨(ms[i], ms[i+1]), by rw [← hpair]; exact List.getElem_mem hlt, hmem⟩

/-- C3 witness: the amended theorem applied to the concrete input
`c3demo` at the pair index 0. -/
theorem c3_witness :
    pairAnomalies (c3demo[0]) (c3demo[1]) = pairAnomaliesCore (c3demo[0]) (c3demo[1]) 30 ∧
    Anomaly.stateChange (c3demo[0]).state (c3demo[1]).state ∈ detectBatteryAnomalies c3demo := by
  have h := c3_amended c3demo 0 (by decide) (Or.inl rfl)
  exact ⟨h.1, h.2 (by decide)⟩

/-! ## C5: end-to-end trend scenario -/

/-- Eleven samples spanning exactly 40 days (one every 4 days, seconds
345600·k for k = 0..10), `fullChargeCap` dropping linearly from 5000 to
4850 mAh (15 mAh per sample) and `designCapacity` constant at 5200. -/
def trendScenario : List Measurement :=
  [⟨some 0, 80, "discharging", 100, 5000, 5200, 4000, 25⟩,
   ⟨some 345600, 80, "discharging", 100, 4985, 5200, 4000, 25⟩,
   ⟨some 691200, 80, "discharging", 100, 4970, 5200, 4000, 25⟩,
   ⟨some 1036800, 80, "discharging", 100, 4955, 5200, 4000, 25⟩,
   ⟨some 1382400, 80, "discharging", 100, 4940, 5200, 4000, 25⟩,
   ⟨some 1728000, 80, "discharging", 100, 4925, 5200, 4000, 25⟩,
   ⟨some 2073600, 80, "discharging", 100, 4910, 5200, 4000, 25⟩,
   ⟨some 2419200, 80, "discharging", 100, 4895, 5200, 4000, 25⟩,
   ⟨some 2764800, 80, "discharging", 100, 4880, 5200, 4000, 25⟩,
   ⟨some 3110400, 80, "discharging", 100, 4865, 5200, 4000, 25⟩,
   ⟨some 3456000, 80, "discharging", 100, 4850, 5200, 4000, 25⟩]

/-- C5: on the 40-day scenario (evaluated with `now` at the last sample),
the trend analyzer reports the degradation rate
`(4850 - 5000) / 40 * 30 / 5200 * 100` (≈ −2.16 % per month, negative),
`healthy = false`, and a strictly positive projected-days-to-80% value.
The 30-day filter keeps only the last 8 samples, but the linear ramp makes
the two-point slope equal to the full 40-day slope. -/
theorem c5_trend_scenario :
    (analyzeCapacityTrend 3456000 trendScenario).degradationRate =
      (4850 - 5000) / 40 * 30 / 5200 * 100 ∧
    (analyzeCapacityTrend 3456000 trendScenario).degradationRate < 0 ∧
    (analyzeCapacityTrend 3456000 trendScenario).isHealthy = false ∧
    0 < (analyzeCapacityTrend 3456000 trendScenario).projectedLifetime := by
  have hfilter : trendScenario.filter (trendKeep 3456000) =
      [⟨some 1036800, 80, "discharging", 100, 4955, 5200, 4000, 25⟩,
       ⟨some 1382400, 80, "discharging", 100, 4940, 5200, 4000, 25⟩,
       ⟨some 1728000, 80, "discharging", 100, 4925, 5200, 4000, 25⟩,
       ⟨some 2073600, 80, "discharging", 100, 4910, 5200, 4000, 25⟩,
       ⟨some 2419200, 80, "discharging", 100, 4895, 5200, 4000, 25⟩,
       ⟨some 2764800, 80, "discharging", 100, 4880, 5200, 4000, 25⟩,
       ⟨some 3110400, 80, "discharging", 100, 4865, 5200, 4000, 25⟩,
       ⟨some 3456000, 80, "discharging", 100, 4850, 5200, 4000, 25⟩] := by
    norm_num [trendScenario, trendKeep, List.filter]
  have hlen : trendScenario.length = 11 := rfl
  simp only [analyzeCapacityTrend, hfilter, hlen]
  norm_num [List.getLast?, List.head?, goTrunc]

/-! ## C2: determinism of the analysis functions -/

/-- A fixed 11-sample history (one sample every 4 days, `fullChargeCap`
dropping 5000 → 4850, design 5200): the slice handed twice, at two
different wall-clock times, to the trend analyzer. -/
def c2History : List Measurement :=
  [⟨some 0, 70, "discharging", 100, 5000, 5200, 4100, 25⟩,
   ⟨some 345600, 70, "discharging", 100, 4985, 5200, 4100, 25⟩,
   ⟨some 691200, 70, "discharging", 100, 4970, 5200, 4100, 25⟩,
   ⟨some 1036800, 70, "discharging", 100, 4955, 5200, 4100, 25⟩,
   ⟨some 1382400, 70, "discharging", 100, 4940, 5200, 4100, 25⟩,
   ⟨some 1728000, 70, "discharging", 100, 4925, 5200, 4100, 25⟩,
   ⟨some 2073600, 70, "discharging", 100, 4910, 5200, 4100, 25⟩,
   ⟨some 2419200, 70, "discharging", 100, 4895, 5200, 4100, 25⟩,
   ⟨some 2764800, 70, "discharging", 100, 4880, 5200, 4100, 25⟩,
   ⟨some 3110400, 70, "discharging", 100, 4865, 5200, 4100, 25⟩,
   ⟨some 3456000, 70, "discharging", 100, 4850, 5200, 4100, 25⟩]

/-- C2 counterexample: `analyzeCapacityTrend` is not a function of its
input slice alone — called on the identical slice `c2History` at two
wall-clock times (`time.Now()` at the last sample vs. a year later) it
returns different results, because the 30-day window is anchored at the
call time: at the first call the trend is computed (unhealthy), at the
second every sample has fallen out of the window (healthy-by-default). -/
theorem c2_counterexample :
    analyzeCapacityTrend 3456000 c2History ≠ analyzeCapacityTrend 40000000 c2History := by
  intro h
  have hh := congrArg TrendAnalysis.isHealthy h
  have hfilter : c2History.filter (trendKeep 3456000) =
      [⟨some 1036800, 70, "discharging", 100, 4955, 5200, 4100, 25⟩,
       ⟨some 1382400, 70, "discharging", 100, 4940, 5200, 4100, 25⟩,
       ⟨some 1728000, 70, "discharging", 100, 4925, 5200, 4100, 25⟩,
       ⟨some 2073600, 70, "discharging", 100, 4910, 5200, 4100, 25⟩,
       ⟨some 2419200, 70, "discharging", 100, 4895, 5200, 4100, 25⟩,
       ⟨some 2764800, 70, "discharging", 100, 4880, 5200, 4100, 25⟩,
       ⟨some 3110400, 70, "discharging", 100, 4865, 5200, 4100, 25⟩,
       ⟨some 3456000, 70, "discharging", 100, 4850, 5200, 4100, 25⟩] := by
    norm_num [c2History, trendKeep, List.filter]
  have hfilter2 : c2History.filter (trendKeep 40000000) = [] := by
    norm_num [c2History, trendKeep, List.filter]
  have hlen : c2History.length = 11 := rfl
  rw [analyzeCapacityTrend, analyzeCapacityTrend, hlen, hfilter, hfilter2] at hh
  norm_num [List.getLast?, List.head?, goTrunc] at hh

/-- C2 amended: every analysis function is deterministic given its input
slice and the wall-clock time; `analyzeCapacityTrend` depends on the
wall-clock time only through which samples pass the 30-day window filter
`trendKeep` — two calls on the identical slice whose window filters agree
sample-by-sample return identical results. (By `c2_counterexample` the
wall-clock argument is genuinely needed: the output is not a function of
the slice alone.) -/
theorem c2_amended (now₁ now₂ : ℚ) (ms : List Measurement)
    (h : ∀ m ∈ ms, trendKeep now₁ m = trendKeep now₂ m) :
    analyzeCapacityTrend now₁ ms = analyzeCapacityTrend now₂ ms := by
  rw [analyzeCapacityTrend, analyzeCapacityTrend, List.filter_congr h]

/-- C2 witness: the amended theorem applied to `c2History` at two distinct
far-future call times, whose 30-day windows agree (both empty). -/
theorem c2_witness :
    analyzeCapacityTrend 40000000 c2History = analyzeCapacityTrend 80000000 c2History := by
  refine c2_amended 40000000 80000000 c2History ?_
  intro m hm
  fin_cases hm <;> norm_num [trendKeep]

/-! ## C1: cycle boundaries on the five-sample scenario -/

/-- Five samples with states discharging, discharging, charging, charging,
discharging, parseable ascending timestamps 0, 30, 60, 90, 120. -/
def c1demo : List Measurement :=
  [⟨some 0, 90, "discharging", 100, 5000, 5200, 4500, 25⟩,
   ⟨some 30, 85, "discharging", 100, 5000, 5200, 4400, 25⟩,
   ⟨some 60, 80, "charging", 100, 5000, 5200, 4300, 25⟩,
   ⟨some 90, 84, "charging", 100, 5000, 5200, 4350, 25⟩,
   ⟨some 120, 83, "discharging", 100, 5000, 5200, 4340, 25⟩]

/-- C1 counterexample: `detectChargeCycles` on the five-sample
[discharging, discharging, charging, charging, discharging] input returns
2 segments, not the claimed 3: the transition at index 2 finds no open
segment to close (segment tracking only begins at the first transition),
so only the transition at index 4 closes a segment, plus the final flush. -/
theorem c1_counterexample :
    (detectChargeCycles c1demo).length = 2 ∧ (2 : ℕ) ≠ 3 := by decide

/-- C1 amended: for every five-sample input with states [discharging,
discharging, charging, charging, discharging] and parseable ascending
timestamps, `detectChargeCycles` returns exactly 2 segments: a charging
segment opened at the index-2 transition and closed at the index-4
transition, and a discharging segment opened at index 4 and flushed at the
end of the walk. The transition points are at indices 2 and 4, but the
samples before the first transition belong to no segment, so no third
segment exists. -/
theorem c1_amended (m0 m1 m2 m3 m4 : Measurement) (t0 t1 t2 t3 t4 : ℚ)
    (ht0 : m0.time = some t0) (ht1 : m1.time = some t1) (ht2 : m2.time = some t2)
    (ht3 : m3.time = some t3) (ht4 : m4.time = some t4)
    (hasc : t0 < t1 ∧ t1 < t2 ∧ t2 < t3 ∧ t3 < t4)
    (hs0 : m0.state = "discharging") (hs1 : m1.state = "discharging")
    (hs2 : m2.state = "charging") (hs3 : m3.state = "charging")
    (hs4 : m4.state = "discharging") :
    (detectChargeCycles [m0, m1, m2, m3, m4]).map
        (fun c => (c.cycleType, c.startTime, c.startPercent, c.endTime, c.endPercent)) =
      [("charging", t2, m2.percentage, t4, m4.percentage),
       ("discharging", t4, m4.percentage, t4, m4.percentage)] := by
  have hdc : ¬ (("discharging" : String) = "charging") := by decide
  have hcd : ¬ (("charging" : String) = "discharging") := by decide
  have hlc : toLowerStr "charging" = "charging" := by decide
  have hld : toLowerStr "discharging" = "discharging" := by decide
  simp [detectChargeCycles, cycleStep, cycleUpdate, cycleOpen, cycleClose,
    ht1, ht2, ht3, ht4, hs0, hs1, hs2, hs3, hs4, hdc, hcd, hlc, hld]

/-- C1 witness: the amended theorem applied to the concrete five-sample
input `c1demo`. -/
theorem c1_witness :
    (detectChargeCycles c1demo).map
        (fun c => (c.cycleType, c.startTime, c.startPercent, c.endTime, c.endPercent)) =
      [("charging", 60, 80, 120, 83), ("discharging", 120, 83, 120, 83)] := by
  have h := c1_amended
    ⟨some 0, 90, "discharging", 100, 5000, 5200, 4500, 25⟩
    ⟨some 30, 85, "discharging", 100, 5000, 5200, 4400, 25⟩
    ⟨some 60, 80, "charging", 100, 5000, 5200, 4300, 25⟩
    ⟨some 90, 84, "charging", 100, 5000, 5200, 4350, 25⟩
    ⟨some 120, 83, "discharging", 100, 5000, 5200, 4340, 25⟩
    0 30 60 90 120 rfl rfl rfl rfl rfl (by norm_num) rfl rfl rfl rfl rfl
  exact h

/-! ## C4: where a closed segment ends -/

/-- The handoff relation between consecutive output segments: the earlier
segment's end time and end percentage are exactly the later segment's
start time and start percentage — i.e. both are the values of the
transition sample that closed the earlier segment and opened the later. -/
def cycleLinked (a b : ChargeCycle) : Prop :=
  a.endTime = b.startTime ∧ a.endPercent = b.startPercent

/-- Invariant of the `detectChargeCycles` walk: the closed segments are
chained by `cycleLinked`, segments only exist once a cycle is open, and
the last closed segment links to the open one (whose start never changes
afterwards). -/
def cycleInv (acc : List ChargeCycle × Option ChargeCycle) : Prop :=
  acc.1.Chain' cycleLinked ∧ (acc.2 = none → acc.1 = []) ∧
    ∀ c, acc.2 = some c → ∀ lc, acc.1.getLast? = some lc → cycleLinked lc c

/-- `cycleStep` preserves the walk invariant. -/
theorem cycleStep_inv (acc : List ChargeCycle × Option ChargeCycle)
    (p : Measurement × Measurement) (h : cycleInv acc) : cycleInv (cycleStep acc p) := by
  obtain ⟨hchain, hnone, hlink⟩ := h
  rw [cycleStep]
  rcases ht : p.2.time with _ | ts
  · exact ⟨hchain, hnone, hlink⟩
  · dsimp only
    by_cases hst : p.1.state ≠ p.2.state
    · rw [if_pos hst]
      rcases hcur : acc.2 with _ | c
      · have h1 : acc.1 = [] := hnone hcur
        refine ⟨by simp [h1], by simp [cycleUpdate], ?_⟩
        intro c' hc' lc hlc
        rw [h1] at hlc
        simp at hlc
      · refine ⟨?_, by simp [cycleUpdate], ?_⟩
        · rw [List.chain'_append]
          refine ⟨hchain, List.chain'_singleton _, ?_⟩
          intro x hx y hy
          simp only [List.head?_cons, Option.mem_def, Option.some.injEq] at hy
          subst hy
          exact hlink c hcur x hx
        · intro c' hc' lc hlc
          rw [List.getLast?_concat] at hlc
          simp only [Option.some.injEq] at hlc
          subst hlc
          simp only [cycleUpdate, Option.some.injEq] at hc'
          subst hc'
          exact ⟨rfl, rfl⟩
    · rw [if_neg hst]
      rcases hcur : acc.2 with _ | c
      · exact ⟨hchain, fun _ => hnone hcur, by simp [cycleUpdate]⟩
      · refine ⟨hchain, by simp [cycleUpdate], ?_⟩
        intro c' hc' lc hlc
        simp only [cycleUpdate, Option.some.injEq] at hc'
        subst hc'
        exact hlink c hcur lc hlc

/-- The fold of `cycleStep` preserves the walk invariant. -/
theorem cycleFold_inv (l : List (Measurement × Measurement))
    (acc : List ChargeCycle × Option ChargeCycle) (h : cycleInv acc) :
    cycleInv (l.foldl cycleStep acc) := by
  induction l generalizing acc with
  | nil => exact h
  | cons p l ih => exact ih _ (cycleStep_inv acc p h)

/-- Flushing the final open segment keeps the output chained. -/
theorem cycleFlush_chain (acc : List ChargeCycle × Option ChargeCycle) (h : cycleInv acc) :
    (match acc.2 with
     | some c => acc.1 ++ [c]
     | none => acc.1).Chain' cycleLinked := by
  obtain ⟨hchain, hnone, hlink⟩ := h
  rcases hc : acc.2 with _ | c
  · exact hchain
  · show List.Chain' cycleLinked (acc.1 ++ [c])
    rw [List.chain'_append]
    refine ⟨hchain, List.chain'_singleton _, ?_⟩
    intro x hx y hy
    simp only [List.head?_cons, Option.mem_def, Option.some.injEq] at hy
    subst hy
    exact hlink c hc x hx

/-- C4 amended: in the output of `detectChargeCycles`, every closed
segment's end time and end percentage equal the next segment's start time
and start percentage — the values of the transition sample that closed
it — rather than those of the last sample before the transition (every
parseable sample does update the open segment's end fields, but the
closing write at a transition overwrites them with the transition
sample's values). -/
theorem c4_amended (measurements : List Measurement) :
    (detectChargeCycles measurements).Chain' cycleLinked := by
  rw [detectChargeCycles]
  split
  · exact List.chain'_nil
  · exact cycleFlush_chain _
      (cycleFold_inv (measurements.zip measurements.tail) ([], none)
        ⟨List.chain'_nil, fun _ => rfl, fun c hc => nomatch hc⟩)

/-- Five samples [discharging, discharging, charging, charging,
discharging]; the last sample before the index-4 transition has
percentage 74, the transition sample has percentage 73. -/
def c4demo : List Measurement :=
  [⟨some 0, 95, "discharging", 100, 5000, 5200, 4600, 25⟩,
   ⟨some 30, 88, "discharging", 100, 5000, 5200, 4480, 25⟩,
   ⟨some 60, 70, "charging", 100, 5000, 5200, 4200, 25⟩,
   ⟨some 90, 74, "charging", 100, 5000, 5200, 4280, 25⟩,
   ⟨some 120, 73, "discharging", 100, 5000, 5200, 4270, 25⟩]

/-- C4 counterexample: the closed charging segment of `c4demo` ends with
percentage 73 — the transition sample's value (index 4) — and not with 74,
the value of the last sample belonging to the segment before the
transition (index 3), contradicting the claim. -/
theorem c4_counterexample :
    (detectChargeCycles c4demo).head?.map ChargeCycle.endPercent = some 73 ∧
    c4demo[3]?.map Measurement.percentage = some 74 ∧
    (some (73 : ℤ) ≠ some (74 : ℤ)) := by decide

/-! ## C8: health score classification -/

/-- Spec-side restatement of the base classification as a decision table
evaluated top to bottom, first match wins: rows
`(wear bound, cycle bound, status, score)`. -/
def specHealthRows : List (ℚ × ℤ × String × ℤ) :=
  [(5, 300, "Отличное", 95), (10, 500, "Хорошее", 85),
   (20, 800, "Удовлетворительное", 70), (30, 1200, "Требует внимания", 50)]

/-- Spec-side base classification: first row whose two strict bounds both
hold, with the default row `("Плохое", 30)`. -/
def specBaseHealth (wear : ℚ) (cycleCount : ℤ) : String × ℤ :=
  match specHealthRows.find? (fun r => decide (wear < r.1 ∧ cycleCount < r.2.1)) with
  | some r => (r.2.2.1, r.2.2.2)
  | none => ("Плохое", 30)

/-- Single latest sample with wear 3 % (design 10000, full 9700) and 100
cycles. -/
def c8Excellent : List Measurement :=
  [⟨some 0, 80, "discharging", 100, 9700, 10000, 4000, 25⟩]

/-- Single latest sample with wear 25 % (design 10000, full 7500) and 1500
cycles. -/
def c8Poor : List Measurement :=
  [⟨some 0, 80, "discharging", 1500, 7500, 10000, 4000, 25⟩]

/-- C8: the base classification of `analyzeBatteryHealth` is exactly the
spec's top-to-bottom first-match decision table (`specBaseHealth`); in
particular wear 3 % with 100 cycles scores 95 with the "Отличное"
(Excellent) status and wear 25 % with 1500 cycles scores 30 with the
"Плохое" (Poor) status; and for every non-empty input the final score is
the base score minus 10 when the anomaly count exceeds 5 and minus a
further 15 when the trend is unhealthy with monthly degradation below −1. -/
theorem c8_health_score_table :
    (∀ (wear : ℚ) (cycleCount : ℤ), baseHealth wear cycleCount = specBaseHealth wear cycleCount) ∧
    (analyzeBatteryHealth 0 c8Excellent).map
      (fun h => (h.healthStatus, h.healthScore)) = some ("Отличное", 95) ∧
    (analyzeBatteryHealth 0 c8Poor).map
      (fun h => (h.healthStatus, h.healthScore)) = some ("Плохое", 30) ∧
    ∀ (now : ℚ) (ms : List Measurement), ms ≠ [] →
      (analyzeBatteryHealth now ms).map (fun h => h.healthScore) =
        some ((baseHealth
                (computeWear (ms.getLast?.getD default).designCapacity
                  (ms.getLast?.getD default).fullChargeCap)
                (ms.getLast?.getD default).cycleCount).2 -
              (if 5 < (detectBatteryAnomalies ms).length then 10 else 0) -
              (if (analyzeCapacityTrend now ms).isHealthy = false ∧
                  (analyzeCapacityTrend now ms).degradationRate < -1 then 15 else 0)) := by
  refine ⟨?_, ?_, ?_, ?_⟩
  · intro wear cycleCount
    rw [baseHealth, specBaseHealth, specHealthRows]
    by_cases h1 : wear < 5 ∧ cycleCount < 300
    · simp [List.find?, h1]
    · by_cases h2 : wear < 10 ∧ cycleCount < 500
      · simp [List.find?, h1, h2]
      · by_cases h3 : wear < 20 ∧ cycleCount < 800
        · simp [List.find?, h1, h2, h3]
        · by_cases h4 : wear < 30 ∧ cycleCount < 1200
          · simp [List.find?, h1, h2, h3, h4]
          · simp [List.find?, h1, h2, h3, h4]
  · norm_num [analyzeBatteryHealth, c8Excellent, List.getLast?, computeWear,
      baseHealth, detectBatteryAnomalies, computeAvgRateRobust,
      analyzeCapacityTrend, detectChargeCycles]
  · norm_num [analyzeBatteryHealth, c8Poor, List.getLast?, computeWear,
      baseHealth, detectBatteryAnomalies, computeAvgRateRobust,
      analyzeCapacityTrend, detectChargeCycles]
  · intro now ms hne
    obtain ⟨latest, hl⟩ := Option.isSome_iff_exists.mp
      (Option.isSome_iff_ne_none.mpr (mt List.getLast?_eq_none_iff.mp hne))
    rw [analyzeBatteryHealth, hl]
    simp only [Option.map_some, Option.some.injEq, Option.getD_some, hl]
    by_cases ha : 5 < (detectBatteryAnomalies ms).length <;>
      by_cases htr : (analyzeCapacityTrend now ms).isHealthy = false ∧
        (analyzeCapacityTrend now ms).degradationRate < -1 <;>
      simp [ha, htr]

/-- C8 witness: the score decomposition applied to the concrete input
`c8Poor` at call time 0 (no anomaly or trend penalty fires). -/
theorem c8_witness :
    (c8Poor : List Measurement) ≠ [] ∧
    (analyzeBatteryHealth 0 c8Poor).map (fun h => h.healthScore) =
      some ((baseHealth
              (computeWear (c8Poor.getLast?.getD default).designCapacity
                (c8Poor.getLast?.getD default).fullChargeCap)
              (c8Poor.getLast?.getD default).cycleCount).2 -
            (if 5 < (detectBatteryAnomalies c8Poor).length then 10 else 0) -
            (if (analyzeCapacityTrend 0 c8Poor).isHealthy = false ∧
                (analyzeCapacityTrend 0 c8Poor).degradationRate < -1 then 15 else 0)) := by
  have hne : (c8Poor : List Measurement) ≠ [] := by simp [c8Poor]
  exact ⟨hne, c8_health_score_table.2.2.2 0 c8Poor hne⟩

/-! ## Machinery for the robust estimator (C7, C10) -/

/-- The acceptance condition of one `computeAvgRateRobust` iteration, as a
Boolean predicate on a pair: not an outlier (`|Δpercentage| ≤ 20` and
`|ΔcurrentCapacity| ≤ 500`), capacity strictly dropping, both timestamps
parseable, elapsed hours in `(0, 2]`. -/
def robustValid (p : Measurement × Measurement) : Bool :=
  decide (¬(20 < |p.2.percentage - p.1.percentage| ∨
            500 < |p.2.currentCapacity - p.1.currentCapacity|)) &&
  decide (¬(((p.1.currentCapacity - p.2.currentCapacity : ℤ) : ℚ) ≤ 0)) &&
  match p.1.time, p.2.time with
  | some t1, some t2 => decide (¬((t2 - t1) / 3600 ≤ 0 ∨ 2 < (t2 - t1) / 3600))
  | _, _ => false

/-- One robust iteration increments the valid-interval count exactly when
the pair passes `robustValid`. -/
theorem robustStep_count (a : ℚ × ℚ × ℕ) (p : Measurement × Measurement) :
    (robustStep a p).2.2 = a.2.2 + (if robustValid p then 1 else 0) := by
  rcases hx : p.1.time with _ | t1 <;> rcases hy : p.2.time with _ | t2 <;>
    simp only [robustStep, robustValid, hx, hy] <;> split_ifs <;> simp_all

/-- The robust fold's count component counts the pairs passing
`robustValid`. -/
theorem robust_fold_count (l : List (Measurement × Measurement)) (a : ℚ × ℚ × ℕ) :
    ((l.foldl robustStep a).2.2 : ℕ) = a.2.2 + l.countP robustValid := by
  induction l generalizing a with
  | nil => simp
  | cons p l ih => rw [List.foldl_cons, ih, List.countP_cons, robustStep_count]; omega

/-- A list of at most one element has no consecutive pairs. -/
theorem zip_tail_nil {α : Type} (w : List α) (h : w.length ≤ 1) : w.zip w.tail = [] :=
  match w with
  | [] => rfl
  | [_] => rfl
  | _ :: _ :: _ => absurd h (by simp)

/-- `computeAvgRateRobust` with the accumulator spelled out (the
non-degenerate branch). -/
theorem computeAvgRateRobust_eq (ms : List Measurement) (intervals : ℕ)
    (h : ¬ ms.length < 2) :
    computeAvgRateRobust ms intervals =
      (if ((windowPairs ms intervals).foldl robustStep (0, 0, 0)).2.1 = 0
       then (0, ((windowPairs ms intervals).foldl robustStep (0, 0, 0)).2.2)
       else (((windowPairs ms intervals).foldl robustStep (0, 0, 0)).1 /
               ((windowPairs ms intervals).foldl robustStep (0, 0, 0)).2.1,
             ((windowPairs ms intervals).foldl robustStep (0, 0, 0)).2.2)) := by
  rw [computeAvgRateRobust, if_neg h]

/-- The returned valid-interval count is the number of window pairs
passing `robustValid`, for every input. -/
theorem computeAvgRateRobust_count (ms : List Measurement) (intervals : ℕ) :
    (computeAvgRateRobust ms intervals).2 = (windowPairs ms intervals).countP robustValid := by
  by_cases h : ms.length < 2
  · rw [computeAvgRateRobust, if_pos h]
    have hw : (window ms intervals).length ≤ 1 := by
      rw [window, List.length_drop]; omega
    rw [windowPairs, zip_tail_nil _ hw]
    rfl
  · rw [computeAvgRateRobust_eq ms intervals h]
    have hcount := robust_fold_count (windowPairs ms intervals) (0, 0, 0)
    split
    · simpa using hcount
    · simpa using hcount

/-! ## C7: outlier rejection -/

/-- C7: when the window pairs split as `l₁ ++ bad :: l₂` where the pair
`bad` has `|Δpercentage| = 25` and every other pair passes every robust
filter, the robust estimator's returned valid-interval count is exactly
`(number of window pairs) − 1`; and the naive estimator does not reject
that pair — whenever `bad` has parseable timestamps and strictly dropping
capacity, the naive loop iteration accumulates its full capacity delta
and elapsed time (the percentage jump plays no role there). -/
theorem c7_outlier_rejection (ms : List Measurement) (intervals : ℕ)
    (l₁ l₂ : List (Measurement × Measurement)) (bad : Measurement × Measurement)
    (hsplit : windowPairs ms intervals = l₁ ++ bad :: l₂)
    (hbad : |bad.2.percentage - bad.1.percentage| = 25)
    (hgood : ∀ p ∈ l₁ ++ l₂, robustValid p = true) :
    (computeAvgRateRobust ms intervals).2 = (windowPairs ms intervals).length - 1 ∧
    ∀ (a : ℚ × ℚ) (t1 t2 : ℚ), bad.1.time = some t1 → bad.2.time = some t2 →
      bad.2.currentCapacity < bad.1.currentCapacity →
      avgRateStep a bad =
        (a.1 + ((bad.1.currentCapacity - bad.2.currentCapacity : ℤ) : ℚ),
         a.2 + (t2 - t1) / 3600) := by
  constructor
  · rw [computeAvgRateRobust_count, hsplit]
    have hbadv : robustValid bad = false := by
      simp only [robustValid, hbad]
      norm_num
    have h1 : l₁.countP robustValid = l₁.length :=
      List.countP_eq_length.mpr fun p hp => hgood p (List.mem_append_left _ hp)
    have h2 : l₂.countP robustValid = l₂.length :=
      List.countP_eq_length.mpr fun p hp => hgood p (List.mem_append_right _ hp)
    rw [List.countP_append, List.countP_cons, h1, h2, hbadv]
    simp only [List.length_append, List.length_cons, Bool.false_eq_true, if_false]
    omega
  · intro a t1 t2 ht1 ht2 hdrop
    rw [avgRateStep]
    have hpos : ¬ ((bad.1.currentCapacity - bad.2.currentCapacity : ℤ) : ℚ) ≤ 0 := by
      push_cast
      push_neg
      exact_mod_cast Int.sub_pos.mpr hdrop
    rw [if_neg hpos, ht1, ht2]

/-- Four samples whose middle pair drops 25 percentage points while every
other pair passes all robust filters. -/
def c7demo : List Measurement :=
  [⟨some 0, 50, "discharging", 100, 5000, 5200, 1000, 25⟩,
   ⟨some 1800, 48, "discharging", 100, 5000, 5200, 950, 25⟩,
   ⟨some 3600, 23, "discharging", 100, 5000, 5200, 900, 25⟩,
   ⟨some 5400, 22, "discharging", 100, 5000, 5200, 850, 25⟩]

/-- C7 witness: the theorem applied to `c7demo` (3 window pairs, the
middle one the outlier) gives a valid-interval count of 2, and the naive
step accumulates the outlier pair. -/
theorem c7_witness :
    (computeAvgRateRobust c7demo 10).2 = (windowPairs c7demo 10).length - 1 ∧
    avgRateStep (0, 0) (c7demo[1], c7demo[2]) =
      ((0 : ℚ) + ((50 : ℤ) : ℚ), (0 : ℚ) + ((3600 : ℚ) - 1800) / 3600) := by
  have h := c7_outlier_rejection c7demo 10
    [(c7demo[0], c7demo[1])] [(c7demo[2], c7demo[3])] (c7demo[1], c7demo[2])
    rfl (by decide)
    (by intro p hp
        fin_cases hp <;> norm_num [robustValid, c7demo])
  exact ⟨h.1, h.2 (0, 0) 1800 3600 rfl rfl (by decide)⟩

/-! ## C10: coherence of the robust estimator's two return values -/

/-- One robust iteration either leaves the accumulator unchanged or adds a
strictly positive capacity delta and a strictly positive elapsed time and
increments the count. -/
theorem robustStep_cases (a : ℚ × ℚ × ℕ) (p : Measurement × Measurement) :
    robustStep a p = a ∨
    ∃ d t : ℚ, 0 < d ∧ 0 < t ∧ robustStep a p = (a.1 + d, a.2.1 + t, a.2.2 + 1) := by
  rcases hx : p.1.time with _ | t1 <;> rcases hy : p.2.time with _ | t2 <;>
    simp only [robustStep, hx, hy] <;> split_ifs with h1 h2 h3 <;>
    try exact Or.inl rfl
  right
  refine ⟨((p.1.currentCapacity - p.2.currentCapacity : ℤ) : ℚ), (t2 - t1) / 3600,
    not_le.mp h2, not_le.mp (not_or.mp h3).1, rfl⟩

/-- Invariant of the robust accumulator: a zero count forces zero totals,
a positive count forces strictly positive totals. -/
def robustInv (a : ℚ × ℚ × ℕ) : Prop :=
  (a.2.2 = 0 → a.1 = 0 ∧ a.2.1 = 0) ∧ (1 ≤ a.2.2 → 0 < a.1 ∧ 0 < a.2.1)

/-- `robustStep` preserves the accumulator invariant. -/
theorem robustStep_inv (a : ℚ × ℚ × ℕ) (p : Measurement × Measurement)
    (h : robustInv a) : robustInv (robustStep a p) := by
  rcases robustStep_cases a p with he | ⟨d, t, hd, ht, he⟩
  · rw [he]; exact h
  · rw [he, robustInv]
    dsimp only
    obtain ⟨hzero, hpos⟩ := h
    constructor
    · intro h0
      exact absurd h0 (Nat.succ_ne_zero _)
    · intro _
      rcases Nat.eq_zero_or_pos a.2.2 with hz | hp
      · obtain ⟨hd0, ht0⟩ := hzero hz
        rw [hd0, ht0, zero_add, zero_add]
        exact ⟨hd, ht⟩
      · obtain ⟨hp1, hp2⟩ := hpos hp
        exact ⟨add_pos hp1 hd, add_pos hp2 ht⟩

/-- The robust fold preserves the accumulator invariant. -/
theorem robustFold_inv (l : List (Measurement × Measurement)) (a : ℚ × ℚ × ℕ)
    (h : robustInv a) : robustInv (l.foldl robustStep a) := by
  induction l generalizing a with
  | nil => exact h
  | cons p l ih => exact ih _ (robustStep_inv a p h)

/-- C10: the two return values of `computeAvgRateRobust` are coherent for
every input and window: the rate is strictly positive exactly when the
valid-interval count is at least 1, and a count of 0 forces a rate of
exactly 0. -/
theorem c10_rate_count_coherent (ms : List Measurement) (intervals : ℕ) :
    (0 < (computeAvgRateRobust ms intervals).1 ↔
      1 ≤ (computeAvgRateRobust ms intervals).2) ∧
    ((computeAvgRateRobust ms intervals).2 = 0 →
      (computeAvgRateRobust ms intervals).1 = 0) := by
  by_cases h : ms.length < 2
  · rw [computeAvgRateRobust, if_pos h]
    norm_num
  · rw [computeAvgRateRobust_eq ms intervals h]
    obtain ⟨hzero, hpos⟩ :=
      robustFold_inv (windowPairs ms intervals) (0, 0, 0)
        ⟨fun _ => ⟨rfl, rfl⟩, fun hle => absurd hle (by norm_num)⟩
    set acc := (windowPairs ms intervals).foldl robustStep (0, 0, 0) with hacc
    by_cases hz : acc.2.1 = 0
    · rw [if_pos hz]
      have hc : acc.2.2 = 0 := by
        by_contra hc
        exact absurd hz (ne_of_gt (hpos (by omega)).2)
      simp [hc]
    · rw [if_neg hz]
      have hc : 1 ≤ acc.2.2 := by
        by_contra hc
        exact hz (hzero (by omega)).2
      obtain ⟨hd, ht⟩ := hpos hc
      exact ⟨iff_of_true (div_pos hd ht) hc, fun h0 => absurd h0 (by omega)⟩

/-- Two samples forming one interval that passes every robust filter. -/
def c10demo : List Measurement :=
  [⟨some 0, 60, "discharging", 100, 5000, 5200, 1200, 25⟩,
   ⟨some 1800, 58, "discharging", 100, 5000, 5200, 1150, 25⟩]

/-- C10 witness: the coherence theorem applied at the empty input (count
0, rate 0) and at `c10demo` (count 1, hence strictly positive rate). -/
theorem c10_witness :
    (computeAvgRateRobust [] 10).1 = 0 ∧ 0 < (computeAvgRateRobust c10demo 10).1 := by
  constructor
  · exact (c10_rate_count_coherent [] 10).2 rfl
  · refine (c10_rate_count_coherent c10demo 10).1.mpr ?_
    rw [computeAvgRateRobust_count]
    norm_num [windowPairs, window, c10demo, robustValid, List.countP_cons, List.countP_nil]

/-! ## Machinery for the monotone-discharge property (C6) -/

/-- A window pair on which every filter of both estimators passes:
parseable timestamps in strictly ascending order at most 2 hours (7200
seconds) apart, strictly dropping capacity, and deltas within the robust
outlier bounds. -/
def qualPair (p : Measurement × Measurement) : Bool :=
  match p.1.time, p.2.time with
  | some t1, some t2 =>
    decide (t1 < t2) && decide (t2 - t1 ≤ 7200) &&
    decide (p.2.currentCapacity < p.1.currentCapacity) &&
    decide (|p.2.percentage - p.1.percentage| ≤ 20) &&
    decide (|p.2.currentCapacity - p.1.currentCapacity| ≤ 500)
  | _, _ => false

/-- Capacity of the first sample of a window (0 on an empty window). -/
def wFirstCap (w : List Measurement) : ℤ := (w.head?.getD default).currentCapacity

/-- Capacity of the last sample of a window (0 on an empty window). -/
def wLastCap (w : List Measurement) : ℤ := (w.getLast?.getD default).currentCapacity

/-- Parsed time of the first sample of a window (0 on an empty window). -/
def wFirstTime (w : List Measurement) : ℚ := ((w.head?.getD default).time).getD 0

/-- Parsed time of the last sample of a window (0 on an empty window). -/
def wLastTime (w : List Measurement) : ℚ := ((w.getLast?.getD default).time).getD 0

/-- `computeAvgRate` with the accumulator spelled out (the non-degenerate
branch). -/
theorem computeAvgRate_eq (ms : List Measurement) (intervals : ℕ)
    (h : ¬ ms.length < 2) :
    computeAvgRate ms intervals =
      (if ((windowPairs ms intervals).foldl avgRateStep (0, 0)).2 = 0 then 0
       else ((windowPairs ms intervals).foldl avgRateStep (0, 0)).1 /
              ((windowPairs ms intervals).foldl avgRateStep (0, 0)).2) := by
  rw [computeAvgRate, if_neg h]

/-- On a window all of whose pairs qualify, the naive fold telescopes: the
accumulated capacity delta is first-minus-last capacity and the
accumulated time is the first-to-last span in hours. -/
theorem avg_fold_telescope : ∀ (w : List Measurement),
    (∀ p ∈ w.zip w.tail, qualPair p = true) → ∀ (a : ℚ × ℚ),
    (w.zip w.tail).foldl avgRateStep a =
      (a.1 + ((wFirstCap w - wLastCap w : ℤ) : ℚ),
       a.2 + (wLastTime w - wFirstTime w) / 3600) := by
  intro w
  induction w with
  | nil =>
    intro _ a
    simp [wFirstCap, wLastCap, wFirstTime, wLastTime]
  | cons x tail ih =>
    intro hq a
    cases tail with
    | nil => simp [wFirstCap, wLastCap, wFirstTime, wLastTime]
    | cons y rest =>
      have hzip : (x :: y :: rest).zip (x :: y :: rest).tail =
          (x, y) :: (y :: rest).zip (y :: rest).tail := rfl
      have hxy : qualPair (x, y) = true := hq (x, y) (by rw [hzip]; exact List.mem_cons_self _ _)
      have hq' : ∀ p ∈ (y :: rest).zip (y :: rest).tail, qualPair p = true :=
        fun p hp => hq p (by rw [hzip]; exact List.mem_cons_of_mem _ hp)
      rcases hx : x.time with _ | t1
      · rw [qualPair, hx] at hxy; simp at hxy
      rcases hy : y.time with _ | t2
      · rw [qualPair, hx, hy] at hxy; simp at hxy
      rw [qualPair, hx, hy] at hxy
      simp only [Bool.and_eq_true, decide_eq_true_eq] at hxy
      obtain ⟨⟨⟨⟨h1, h2⟩, h3⟩, h4⟩, h5⟩ := hxy
      have hstep : avgRateStep a (x, y) =
          (a.1 + ((x.currentCapacity - y.currentCapacity : ℤ) : ℚ),
           a.2 + (t2 - t1) / 3600) := by
        rw [avgRateStep]
        dsimp only
        rw [if_neg (by exact_mod_cast not_le.mpr (Int.sub_pos.mpr h3)), hx, hy]
      rw [hzip, List.foldl_cons, hstep, ih hq' _]
      have hft : wFirstTime (y :: rest) = t2 := by rw [wFirstTime]; simp [hy]
      have hlc : wLastCap (y :: rest) = wLastCap (x :: y :: rest) := by
        rw [wLastCap, wLastCap, List.getLast?_cons_cons]
      have hlt : wLastTime (y :: rest) = wLastTime (x :: y :: rest) := by
        rw [wLastTime, wLastTime, List.getLast?_cons_cons]
      have hfc : wFirstCap (y :: rest) = y.currentCapacity := rfl
      have hxc : wFirstCap (x :: y :: rest) = x.currentCapacity := rfl
      have hxt : wFirstTime (x :: y :: rest) = t1 := by rw [wFirstTime]; simp [hx]
      rw [hft, hlc, hlt, hfc, hxc, hxt, Prod.mk.injEq]
      constructor
      · push_cast
        ring
      · ring

/-- On a window all of whose pairs qualify, the robust fold telescopes the
same way and counts every pair as valid. -/
theorem robust_fold_telescope : ∀ (w : List Measurement),
    (∀ p ∈ w.zip w.tail, qualPair p = true) → ∀ (a : ℚ × ℚ × ℕ),
    (w.zip w.tail).foldl robustStep a =
      (a.1 + ((wFirstCap w - wLastCap w : ℤ) : ℚ),
       a.2.1 + (wLastTime w - wFirstTime w) / 3600,
       a.2.2 + (w.zip w.tail).length) := by
  intro w
  induction w with
  | nil =>
    intro _ a
    simp [wFirstCap, wLastCap, wFirstTime, wLastTime]
  | cons x tail ih =>
    intro hq a
    cases tail with
    | nil => simp [wFirstCap, wLastCap, wFirstTime, wLastTime]
    | cons y rest =>
      have hzip : (x :: y :: rest).zip (x :: y :: rest).tail =
          (x, y) :: (y :: rest).zip (y :: rest).tail := rfl
      have hxy : qualPair (x, y) = true := hq (x, y) (by rw [hzip]; exact List.mem_cons_self _ _)
      have hq' : ∀ p ∈ (y :: rest).zip (y :: rest).tail, qualPair p = true :=
        fun p hp => hq p (by rw [hzip]; exact List.mem_cons_of_mem _ hp)
      rcases hx : x.time with _ | t1
      · rw [qualPair, hx] at hxy; simp at hxy
      rcases hy : y.time with _ | t2
      · rw [qualPair, hx, hy] at hxy; simp at hxy
      rw [qualPair, hx, hy] at hxy
      simp only [Bool.and_eq_true, decide_eq_true_eq] at hxy
      obtain ⟨⟨⟨⟨h1, h2⟩, h3⟩, h4⟩, h5⟩ := hxy
      have hstep : robustStep a (x, y) =
          (a.1 + ((x.currentCapacity - y.currentCapacity : ℤ) : ℚ),
           a.2.1 + (t2 - t1) / 3600, a.2.2 + 1) := by
        rw [robustStep]
        dsimp only
        rw [if_neg (not_or.mpr ⟨not_lt.mpr h4, not_lt.mpr h5⟩),
          if_neg (by exact_mod_cast not_le.mpr (Int.sub_pos.mpr h3)), hx, hy]
        dsimp only
        rw [if_neg (not_or.mpr ⟨not_le.mpr (div_pos (sub_pos.mpr h1) (by norm_num)),
          not_lt.mpr ((div_le_iff (by norm_num : (0:ℚ) < 3600)).mpr (by linarith))⟩)]
      rw [hzip, List.foldl_cons, hstep, ih hq' _]
      have hft : wFirstTime (y :: rest) = t2 := by rw [wFirstTime]; simp [hy]
      have hlc : wLastCap (y :: rest) = wLastCap (x :: y :: rest) := by
        rw [wLastCap, wLastCap, List.getLast?_cons_cons]
      have hlt : wLastTime (y :: rest) = wLastTime (x :: y :: rest) := by
        rw [wLastTime, wLastTime, List.getLast?_cons_cons]
      have hfc : wFirstCap (y :: rest) = y.currentCapacity := rfl
      have hxc : wFirstCap (x :: y :: rest) = x.currentCapacity := rfl
      have hxt : wFirstTime (x :: y :: rest) = t1 := by rw [wFirstTime]; simp [hx]
      rw [hft, hlc, hlt, hfc, hxc, hxt, Prod.mk.injEq, Prod.mk.injEq]
      refine ⟨by push_cast; ring, by ring, ?_⟩
      dsimp only
      rw [List.length_cons]
      omega

/-- Along a window all of whose pairs qualify, time strictly increases and
capacity strictly decreases from the first sample to the last. -/
theorem qual_window_mono : ∀ (w : List Measurement),
    (∀ p ∈ w.zip w.tail, qualPair p = true) → 2 ≤ w.length →
    wFirstTime w < wLastTime w ∧ wLastCap w < wFirstCap w := by
  intro w
  induction w with
  | nil => intro _ h; simp at h
  | cons x tail ih =>
    intro hq hlen
    cases tail with
    | nil => simp at hlen
    | cons y rest =>
      have hzip : (x :: y :: rest).zip (x :: y :: rest).tail =
          (x, y) :: (y :: rest).zip (y :: rest).tail := rfl
      have hxy : qualPair (x, y) = true := hq (x, y) (by rw [hzip]; exact List.mem_cons_self _ _)
      have hq' : ∀ p ∈ (y :: rest).zip (y :: rest).tail, qualPair p = true :=
        fun p hp => hq p (by rw [hzip]; exact List.mem_cons_of_mem _ hp)
      rcases hx : x.time with _ | t1
      · rw [qualPair, hx] at hxy; simp at hxy
      rcases hy : y.time with _ | t2
      · rw [qualPair, hx, hy] at hxy; simp at hxy
      rw [qualPair, hx, hy] at hxy
      simp only [Bool.and_eq_true, decide_eq_true_eq] at hxy
      obtain ⟨⟨⟨⟨h1, _⟩, h3⟩, _⟩, _⟩ := hxy
      have hxt : wFirstTime (x :: y :: rest) = t1 := by rw [wFirstTime]; simp [hx]
      have hxc : wFirstCap (x :: y :: rest) = x.currentCapacity := rfl
      cases rest with
      | nil =>
        have hyt : wLastTime [x, y] = t2 := by
          rw [wLastTime, List.getLast?_cons_cons, List.getLast?_singleton]
          simp [hy]
        have hyc : wLastCap [x, y] = y.currentCapacity := by
          rw [wLastCap, List.getLast?_cons_cons, List.getLast?_singleton]
          rfl
        rw [hxt, hxc, hyt, hyc]
        exact ⟨h1, h3⟩
      | cons z rest' =>
        obtain ⟨iht, ihc⟩ := ih hq' (by simp)
        have hft : wFirstTime (y :: z :: rest') = t2 := by rw [wFirstTime]; simp [hy]
        have hfc : wFirstCap (y :: z :: rest') = y.currentCapacity := rfl
        have hlt : wLastTime (y :: z :: rest') = wLastTime (x :: y :: z :: rest') := by
          simp only [wLastTime, List.getLast?_cons_cons]
        have hlc : wLastCap (y :: z :: rest') = wLastCap (x :: y :: z :: rest') := by
          simp only [wLastCap, List.getLast?_cons_cons]
        constructor
        · rw [hxt, ← hlt]
          calc t1 < t2 := h1
            _ = wFirstTime (y :: z :: rest') := hft.symm
            _ < wLastTime (y :: z :: rest') := iht
        · rw [hxc, ← hlc]
          calc wLastCap (y :: z :: rest') < wFirstCap (y :: z :: rest') := ihc
            _ = y.currentCapacity := hfc
            _ < x.currentCapacity := h3

/-! ## C6: monotone discharge sequences -/

/-- C6 amended: for an input of at least 2 samples, a window of at least 1
interval, `state = "discharging"` throughout, in which every window pair
additionally passes every robust filter (parseable strictly ascending
timestamps at most 2 hours apart, strictly dropping capacity,
`|Δpercentage| ≤ 20`, `|ΔcurrentCapacity| ≤ 500`), both estimators return
the same strictly positive rate: the total capacity lost over the window
divided by the total hours elapsed over it, and the robust estimator
counts every window pair as valid. -/
theorem c6_monotonic_rate (ms : List Measurement) (intervals : ℕ)
    (hlen : 2 ≤ ms.length) (hint : 1 ≤ intervals)
    (hstate : ∀ m ∈ ms, m.state = "discharging")
    (hq : ∀ p ∈ windowPairs ms intervals, qualPair p = true) :
    computeAvgRate ms intervals =
      ((wFirstCap (window ms intervals) - wLastCap (window ms intervals) : ℤ) : ℚ) /
        ((wLastTime (window ms intervals) - wFirstTime (window ms intervals)) / 3600) ∧
    0 < computeAvgRate ms intervals ∧
    computeAvgRateRobust ms intervals =
      (computeAvgRate ms intervals, (windowPairs ms intervals).length) := by
  have hw2 : 2 ≤ (window ms intervals).length := by
    rw [window, List.length_drop]
    omega
  have hnl : ¬ ms.length < 2 := by omega
  obtain ⟨htlt, hclt⟩ := qual_window_mono (window ms intervals) hq hw2
  have hH : (0:ℚ) <
      (wLastTime (window ms intervals) - wFirstTime (window ms intervals)) / 3600 :=
    div_pos (sub_pos.mpr htlt) (by norm_num)
  have hL : (0:ℚ) <
      ((wFirstCap (window ms intervals) - wLastCap (window ms intervals) : ℤ) : ℚ) := by
    exact_mod_cast Int.sub_pos.mpr hclt
  have htel : (windowPairs ms intervals).foldl avgRateStep (0, 0) =
      (0 + ((wFirstCap (window ms intervals) - wLastCap (window ms intervals) : ℤ) : ℚ),
       0 + (wLastTime (window ms intervals) - wFirstTime (window ms intervals)) / 3600) :=
    avg_fold_telescope (window ms intervals) hq (0, 0)
  have havg : computeAvgRate ms intervals =
      ((wFirstCap (window ms intervals) - wLastCap (window ms intervals) : ℤ) : ℚ) /
        ((wLastTime (window ms intervals) - wFirstTime (window ms intervals)) / 3600) := by
    rw [computeAvgRate_eq ms intervals hnl, htel]
    simp only [zero_add]
    rw [if_neg (ne_of_gt hH)]
  refine ⟨havg, havg ▸ div_pos hL hH, ?_⟩
  have hrtel : (windowPairs ms intervals).foldl robustStep (0, 0, 0) =
      (0 + ((wFirstCap (window ms intervals) - wLastCap (window ms intervals) : ℤ) : ℚ),
       0 + (wLastTime (window ms intervals) - wFirstTime (window ms intervals)) / 3600,
       0 + (windowPairs ms intervals).length) :=
    robust_fold_telescope (window ms intervals) hq (0, 0, 0)
  rw [computeAvgRateRobust_eq ms intervals hnl, hrtel]
  simp only [zero_add]
  rw [if_neg (ne_of_gt hH), havg]

/-- Two samples with strictly decreasing capacity and discharging state
throughout, whose capacity delta (1000 mAh) exceeds the robust filter's
500 mAh bound over a one-hour interval. -/
def c6bad : List Measurement :=
  [⟨some 0, 50, "discharging", 100, 5000, 5200, 2000, 25⟩,
   ⟨some 3600, 48, "discharging", 100, 5000, 5200, 1000, 25⟩]

/-- C6 counterexample: on `c6bad` — ascending parseable timestamps,
strictly decreasing capacity, discharging throughout — the naive estimator
returns the claimed 1000 mAh lost / 1 hour, but the robust estimator
rejects the single pair (`|Δcapacity| = 1000 > 500`) and returns rate 0
with 0 valid intervals, which is neither strictly positive nor equal to
the total-loss-over-total-hours figure. -/
theorem c6_counterexample :
    (∀ m ∈ c6bad, m.state = "discharging") ∧
    computeAvgRate c6bad 10 = 1000 ∧
    computeAvgRateRobust c6bad 10 = (0, 0) ∧ ¬ ((0:ℚ) < 0) := by
  refine ⟨by decide, ?_, ?_, by norm_num⟩
  · norm_num [computeAvgRate, windowPairs, window, c6bad, avgRateStep,
      List.foldl]
  · norm_num [computeAvgRateRobust, windowPairs, window, c6bad, robustStep,
      List.foldl]

/-- Three samples forming two well-behaved discharging intervals: caps
1000, 900, 800 over half-hour steps. -/
def c6demo : List Measurement :=
  [⟨some 0, 50, "discharging", 100, 5000, 5200, 1000, 25⟩,
   ⟨some 1800, 48, "discharging", 100, 5000, 5200, 900, 25⟩,
   ⟨some 3600, 46, "discharging", 100, 5000, 5200, 800, 25⟩]

/-- C6 witness: the amended theorem applied to `c6demo` — both estimators
return the rate 200 mAh lost / 1 hour, with 2 valid intervals. -/
theorem c6_witness :
    computeAvgRate c6demo 10 =
      ((wFirstCap (window c6demo 10) - wLastCap (window c6demo 10) : ℤ) : ℚ) /
        ((wLastTime (window c6demo 10) - wFirstTime (window c6demo 10)) / 3600) ∧
    0 < computeAvgRate c6demo 10 ∧
    computeAvgRateRobust c6demo 10 =
      (computeAvgRate c6demo 10, (windowPairs c6demo 10).length) := by
  refine c6_monotonic_rate c6demo 10 (by decide) (by decide) (by decide) ?_
  intro p hp
  fin_cases hp <;> norm_num [qualPair]
